import Mathlib

/-!
Shallow embedding of `src/go-database-comparison/pkg/concurrency/goroutine_pool.go`
(package `concurrency`): the bounded goroutine worker pool driving concurrent
benchmark jobs, and the benchmark-statistics recorder built on top of it.

Modelling conventions:
* `time.Duration` is int64 nanoseconds; values are carried as `Int`, and
  every arithmetic step the Go code performs on an `int64` where overflow is
  possible (the benchmark recorder's counter increment, its running
  `total += d`, and its divisor conversion) wraps its result into the int64
  range via `wrap64`, matching Go's two's-complement wrap-around.  Go's
  integer division (`/` on `time.Duration`) truncates toward zero, which is
  `Int.tdiv`.
* Go `error` values: the pool produces `fmt.Errorf` string errors and the
  `context` package's sentinel errors; a job's own `TaskFunc` may return any
  error.  `GoError` covers these: `errorString` is the single dynamic type
  every `fmt.Errorf` call here produces, `contextCanceled` /
  `contextDeadlineExceeded` are the two typed sentinels of package `context`,
  and `custom` stands for any other error value a job may produce.
* A `context.Context` is modelled by its two observable features used here:
  whether it is cancelled and its deadline (as a remaining budget).
* A `TaskFunc` is a function from the context it is handed to its behaviour:
  it either returns a `(data, err)` pair after some elapsed time, or it never
  returns (`diverges`) — `executeJob` calls it synchronously, so a
  non-returning task means `executeJob` itself never returns, which the
  embedding records as `none`.
* `Start`/`Submit`/`Stop` all hold the pool's mutex, so their effects are
  linearizable; they are embedded as sequential functions on `PoolState`.
  `select` statements whose cases can be simultaneously ready take an explicit
  `pick`/oracle argument standing for the runtime's random choice.
-/

namespace Concurrency

/-- `time.Duration`: int64 nanoseconds. -/
abbrev Duration := Int

/-- Go `error` values occurring in this package (see file header). -/
inductive GoError where
  | errorString (msg : String)
  | contextCanceled
  | contextDeadlineExceeded
  | custom (tag : Int)
deriving DecidableEq

/-- `fmt.Errorf("worker pool not started")` returned by `Submit` (line 127). -/
def poolNotStartedErr : GoError := .errorString "worker pool not started"

/-- `fmt.Errorf("job queue full")` returned by `Submit` (line 136). -/
def queueFullErr : GoError := .errorString "job queue full"

/-- `wp.ctx.Err()` returned by `Submit` once the pool context is cancelled
(line 134); cancellation via `Stop`'s `wp.cancel()` makes this the
`context.Canceled` sentinel. -/
def poolCancelledErr : GoError := .contextCanceled

/-- The message of `fmt.Errorf("timeout waiting for results, got %d/%d", len(results), count)`
(line 161). -/
def collectTimeoutMsg (got expected : Nat) : String :=
  "timeout waiting for results, got " ++ Nat.repr got ++ "/" ++ Nat.repr expected

/-- The error `GetResults` returns on timeout (line 161). -/
def collectTimeoutErr (got expected : Nat) : GoError :=
  .errorString (collectTimeoutMsg got expected)

/-- Whether two Go error values have the same dynamic type: all `fmt.Errorf`
results share the one string-error type, while the `context` sentinels are
distinct typed values. -/
def sameGoErrorType : GoError → GoError → Bool
  | .errorString _, .errorString _ => true
  | .contextCanceled, .contextCanceled => true
  | .contextDeadlineExceeded, .contextDeadlineExceeded => true
  | .custom _, .custom _ => true
  | _, _ => false

/-- A `context.Context` as observed by this package: cancellation flag and
optional deadline, the latter kept as a remaining time budget. -/
structure Ctx where
  cancelled : Bool
  deadline : Option Duration
deriving DecidableEq

/-- `context.WithTimeout(parent, d)`: the child carries the tighter of the
parent's deadline and `d`, and the parent's cancellation. -/
def withTimeout (c : Ctx) (d : Duration) : Ctx :=
  { cancelled := c.cancelled
    deadline := some (match c.deadline with
      | none => d
      | some p => min p d) }

/-- The behaviour of one invocation of a job's `TaskFunc` on the context it
receives: it returns `(data, err)` after `elapsed` nanoseconds, or it never
returns at all. -/
inductive TaskOutcome (α : Type) where
  | returns (data : α) (err : Option GoError) (elapsed : Duration)
  | diverges

/-- `Job` (lines 24–28): ID, TaskFunc, per-job timeout. -/
structure Job (α : Type) where
  id : Int
  task : Ctx → TaskOutcome α
  timeout : Duration

/-- `Result` (lines 31–36). -/
structure Result (α : Type) where
  jobID : Int
  data : α
  error : Option GoError
  duration : Duration

/-- The job-specific context `executeJob` builds (lines 101–107): the pool
context, tightened by `job.Timeout` when that is positive. -/
def mkJobCtx (poolCtx : Ctx) (job : Job α) : Ctx :=
  if 0 < job.timeout then withTimeout poolCtx job.timeout else poolCtx

/-- `executeJob` (lines 98–119): build the job context, call the TaskFunc
synchronously, wrap whatever it returns — data, error and elapsed time — in a
`Result` with the job's ID.  If the TaskFunc never returns, `executeJob`
itself never returns: no `Result` exists for the job (`none`). -/
def executeJob (poolCtx : Ctx) (job : Job α) : Option (Result α) :=
  match job.task (mkJobCtx poolCtx job) with
  | .returns d e t => some { jobID := job.id, data := d, error := e, duration := t }
  | .diverges => none

/-- The mutex-protected state of a `WorkerPool` (lines 12–21), together with
the contents/closedness of its two channels and bookkeeping of spawned and
still-running workers (`wp.wg`). -/
structure PoolState (α : Type) where
  workers : Nat
  queueCap : Nat
  resultsCap : Nat
  queue : List (Job α)
  queueClosed : Bool
  resultsClosed : Bool
  cancelled : Bool
  started : Bool
  spawnedTotal : Nat
  liveWorkers : Nat

/-- `NewWorkerPool` (lines 39–53): non-positive `workers` is replaced by
`runtime.NumCPU()`; job queue buffered at `workers*10`, results at
`workers*2`; the pool context is a cancellable child of the caller's context. -/
def NewWorkerPool (α : Type) (parentCancelled : Bool) (numCPU : Nat) (workers : Int) :
    PoolState α :=
  let w : Nat := if workers ≤ 0 then numCPU else workers.toNat
  { workers := w
    queueCap := w * 10
    resultsCap := w * 2
    queue := []
    queueClosed := false
    resultsClosed := false
    cancelled := parentCancelled
    started := false
    spawnedTotal := 0
    liveWorkers := 0 }

/-- `Start` (lines 56–70): no-op when already started, otherwise spawns
`wp.workers` workers (each `wg.Add(1)`-registered) and sets `started`. -/
def Start (s : PoolState α) : PoolState α :=
  if s.started then s
  else
    { s with
      started := true
      spawnedTotal := s.spawnedTotal + s.workers
      liveWorkers := s.liveWorkers + s.workers }

/-- `Stop` (lines 169–182): no-op when not started; otherwise cancels the pool
context, closes the job queue, waits for every worker to exit (`wg.Wait`, so
`liveWorkers` is 0 afterwards), closes the results channel and clears
`started`. -/
def Stop (s : PoolState α) : PoolState α :=
  if !s.started then s
  else
    { s with
      cancelled := true
      queueClosed := true
      liveWorkers := 0
      resultsClosed := true
      started := false }

/-- The four side effects `Stop` performs on a started pool, in program
order (lines 177–180). -/
inductive StopEvent where
  | cancelCtx
  | closeJobQueue
  | waitAllWorkers
  | closeResults
deriving DecidableEq, BEq

/-- The sequence of effects a `Stop` call performs (empty for a pool that was
never started, since `Stop` returns at line 174). -/
def stopTrace (s : PoolState α) : List StopEvent :=
  if !s.started then []
  else [.cancelCtx, .closeJobQueue, .waitAllWorkers, .closeResults]

/-- Outcome of `Submit`: success, a synchronous error (pool state unchanged),
or a runtime panic (send on a closed channel). -/
inductive SubmitRes (α : Type) where
  | ok (s : PoolState α)
  | err (e : GoError) (s : PoolState α)
  | panicked

/-- The error a `SubmitRes` carries, if any. -/
def SubmitRes.errOf : SubmitRes α → Option GoError
  | .ok _ => none
  | .err e _ => some e
  | .panicked => none

/-- `Submit` (lines 122–138).  After the `started` guard it runs a `select`
with a send case, a `<-ctx.Done()` case and a `default`.  The send case is
ready when the buffered queue has room — or when the channel is closed, in
which case committing to it panics.  When both the send case and the done
case are ready, Go picks one at random: `pick = true` stands for the send
case winning. -/
def Submit (s : PoolState α) (j : Job α) (pick : Bool) : SubmitRes α :=
  if !s.started then .err poolNotStartedErr s
  else
    let sendReady := s.queueClosed || decide (s.queue.length < s.queueCap)
    let doneReady := s.cancelled
    if sendReady && doneReady then
      if pick then
        if s.queueClosed then .panicked
        else .ok { s with queue := s.queue ++ [j] }
      else .err poolCancelledErr s
    else if sendReady then
      if s.queueClosed then .panicked
      else .ok { s with queue := s.queue ++ [j] }
    else if doneReady then .err poolCancelledErr s
    else .err queueFullErr s

/-- `GetResults` (lines 151–166), inner loop: `count` iterations, each racing
a receive from the results channel against the timeout context.  `arrived` is
the (finite) sequence of results that become available before the timeout
fires, in arrival order; once it is exhausted the timeout case is taken and
the partial list is returned with the formatted timeout error. -/
def getResultsGo (acc : List (Result α)) :
    List (Result α) → Nat → List (Result α) × Option GoError
  | _, 0 => (acc, none)
  | [], k + 1 => (acc, some (collectTimeoutErr acc.length (acc.length + (k + 1))))
  | r :: rest, k + 1 => getResultsGo (acc ++ [r]) rest k

/-- `GetResults` (lines 151–166). -/
def GetResults (arrived : List (Result α)) (count : Nat) :
    List (Result α) × Option GoError :=
  getResultsGo [] arrived count

/-- How one worker's loop (lines 73–95) can end: it exits (its `wg.Done`
fires), it blocks on a `select` none of whose cases can ever become ready, or
it is stuck inside a `TaskFunc` that never returns. -/
inductive WorkerEnd where
  | exited
  | blocked
  | stuckInJob
deriving DecidableEq

/-- One worker's loop (lines 73–95), run to completion against a fixed
environment:
`pc` is the pool context; `queueClosed` whether `close(wp.jobQueue)` has
happened; the `List (Job α)` the jobs this worker will be handed from the
queue buffer, in order (empty when the buffer is exhausted, after which a
receive only reports closedness); `free` how many sends the results channel
can still absorb; `oracle` resolves each `select` both of whose cases are
ready (`true` = the channel case wins, `false` = `<-ctx.Done()` wins), one
entry consumed per `select`.

Each iteration: the outer `select` races the queue receive against
`ctx.Done`; a received job is run by `executeJob`; the inner `select` races
the result send against `ctx.Done` (the worker never blocks forever
delivering a result after cancellation — if `ctx.Done` wins, the result is
dropped and the worker returns). -/
def workerRun (pc : Ctx) (queueClosed : Bool) :
    List (Job α) → Nat → List Bool → WorkerEnd
  | [], _, _ =>
    -- receive is ready only through closedness (`ok = false` ⇒ return)
    if queueClosed then .exited
    else if pc.cancelled then .exited
    else .blocked
  | j :: rest, free, oracle =>
    -- receive is ready (a buffered job); `ctx.Done` is ready iff cancelled
    if pc.cancelled && !oracle.headD false then .exited
    else
      match executeJob pc j with
      | none => .stuckInJob
      | some _ =>
        let sendReady : Bool := decide (0 < free)
        if sendReady && pc.cancelled then
          if (oracle.drop 1).headD false then
            workerRun pc queueClosed rest (free - 1) (oracle.drop 2)
          else .exited
        else if sendReady then
          workerRun pc queueClosed rest (free - 1) (oracle.drop 2)
        else if pc.cancelled then .exited
        else .blocked

/-- A batch of `Submit` calls in sequence (as the benchmark drivers do),
recording each call's error (`none` = accepted); a panic aborts the batch. -/
def submitSeq (s : PoolState α) : List (Job α) → PoolState α × List (Option GoError)
  | [] => (s, [])
  | j :: rest =>
    match Submit s j false with
    | .ok s' =>
      let p := submitSeq s' rest
      (p.1, none :: p.2)
    | .err e s' =>
      let p := submitSeq s' rest
      (p.1, some e :: p.2)
    | .panicked => (s, [])

/-- Pool states reachable through the API: creation, `Start`, `Stop`, and
accepted `Submit` calls (a rejected `Submit` leaves the state unchanged). -/
inductive Reachable : PoolState α → Prop where
  | new (parentCancelled : Bool) (numCPU : Nat) (workers : Int) :
      Reachable (NewWorkerPool α parentCancelled numCPU workers)
  | start {s : PoolState α} : Reachable s → Reachable (Start s)
  | stop {s : PoolState α} : Reachable s → Reachable (Stop s)
  | submit_ok {s s' : PoolState α} (j : Job α) (pick : Bool) :
      Reachable s → Submit s j pick = .ok s' → Reachable s'

/-! ### The benchmark recorder (`DatabaseBenchmarkPool`, lines 197–276)

Only the mutex-protected `operations`/`durations` maps matter to the claims
about it; Go maps with their zero-value-on-missing-key semantics are embedded
as total functions defaulting to `0` / `[]`.

Go's `int64`/`time.Duration` arithmetic wraps around on overflow
(two's-complement), so every arithmetic operation of the recorder that Go
performs on an `int64` — the `operations[op]++` increment, each `total += d`
step, and the `int → time.Duration` divisor conversion — is embedded through
`wrap64`. -/

/-- Two's-complement wrap-around into the `int64` range
`[-2^63, 2^63)` — what every Go `int64`/`time.Duration` arithmetic
operation applies to its mathematical result. -/
def wrap64 (a : Int) : Int := (a + 2 ^ 63) % 2 ^ 64 - 2 ^ 63

/-- The two maps of `DatabaseBenchmarkPool` (lines 198–203). -/
structure BenchState where
  operations : String → Int
  durations : String → List Duration

/-- `NewDatabaseBenchmarkPool`'s fresh maps (lines 206–212). -/
def newBenchState : BenchState :=
  { operations := fun _ => 0, durations := fun _ => [] }

/-- `RecordOperation` (lines 226–235): bump the operation's counter (an
`int64`, so the increment wraps) and append the duration (the `nil` check
plus `append` is exactly list append onto the default empty list). -/
def RecordOperation (s : BenchState) (op : String) (d : Duration) : BenchState :=
  { operations := fun k => if k = op then wrap64 (s.operations k + 1) else s.operations k
    durations := fun k => if k = op then s.durations k ++ [d] else s.durations k }

/-- A sequence of `RecordOperation` calls. -/
def recordSeq (s : BenchState) : List (String × Duration) → BenchState
  | [] => s
  | c :: rest => recordSeq (RecordOperation s c.1 c.2) rest

/-- The per-operation record `GetBenchmarkStats` builds (lines 266–272). -/
structure OpStats where
  count : Int
  avg : Duration
  min : Duration
  max : Duration
  total : Duration
deriving DecidableEq

/-- `GetBenchmarkStats` (lines 238–276), at one operation name: an operation
with no recorded durations is skipped (`continue`); otherwise `total` sums the
list with `total += d` — `time.Duration` addition, so each step wraps on
int64 overflow — `min`/`max` fold comparisons starting from `durations[0]`,
and `avg` is `total / time.Duration(len(durations))`, Go's truncating int64
division by the length taken as an `int64`. -/
def GetBenchmarkStats (s : BenchState) (op : String) : Option OpStats :=
  match s.durations op with
  | [] => none
  | d0 :: _ =>
    let ds := s.durations op
    let total := ds.foldl (fun acc d => wrap64 (acc + d)) 0
    let mn := ds.foldl (fun m d => if d < m then d else m) d0
    let mx := ds.foldl (fun m d => if d > m then d else m) d0
    some
      { count := s.operations op
        avg := Int.tdiv total (wrap64 (Int.ofNat ds.length))
        min := mn
        max := mx
        total := total }

/-- The durations a sequence of `RecordOperation` calls records under one
operation name, in call order. -/
def durationsOf (calls : List (String × Duration)) (op : String) : List Duration :=
  (calls.filter (fun c => c.1 == op)).map (fun c => c.2)

/-- Whether every running total of `total += d` over the list, started at
`acc`, stays inside the `int64` range — i.e. no step of the sum overflows. -/
def sumsWithin64 : List Int → Int → Bool
  | [], _ => true
  | d :: rest, acc =>
    decide (-(2 ^ 63) ≤ acc + d) && decide (acc + d < 2 ^ 63)
      && sumsWithin64 rest (acc + d)

/-! ### Concrete fixtures used by witnesses and counterexamples -/

/-- A harmless job whose TaskFunc returns at once. -/
def unitJob : Job Unit :=
  { id := 0, task := fun _ => .returns () none 3, timeout := 0 }

/-- A job with a 1ms timeout whose TaskFunc ignores the context it is handed
and never returns. -/
def divergingJob : Job Unit :=
  { id := 7, task := fun _ => .diverges, timeout := 1000000 }

/-- An uncancelled context with no deadline. -/
def ctx0 : Ctx := { cancelled := false, deadline := none }

/-- A job whose TaskFunc fails with an arbitrary library error. -/
def errJob : Job Unit :=
  { id := 9, task := fun _ => .returns () (some (.custom 42)) 11, timeout := 0 }

/-- A concrete result value. -/
def unitResult : Result Unit :=
  { jobID := 1, data := (), error := none, duration := 5 }

/-- A one-worker pool (queue capacity 10) filled to capacity by ten accepted
submissions, none dequeued. -/
def fullPool : PoolState Unit :=
  (submitSeq (Start (NewWorkerPool Unit false 1 1)) (List.replicate 10 unitJob)).1

/-! ## Theorems -/

/-- C1 (amended): the per-job timeout is enforced only cooperatively.  A job
whose unit-of-work ignores its context and runs indefinitely never produces a
Result at all — `executeJob` calls the TaskFunc synchronously and so never
returns for such a job; no `JobDeadlineExceeded` failure is ever manufactured
by the pool. -/
theorem executeJob_of_diverging_task {α : Type} (pc : Ctx) (j : Job α)
    (h : ∀ c, j.task c = TaskOutcome.diverges) : executeJob pc j = none := by
  unfold executeJob
  rw [h]

/-- Witness for C1's amended theorem: the concrete context-ignoring job with a
positive timeout yields no Result. -/
theorem executeJob_of_diverging_task_witness :
    executeJob { cancelled := true, deadline := some 5 } divergingJob = none :=
  executeJob_of_diverging_task _ divergingJob (fun _ => rfl)

/-- C1 counterexample: `divergingJob` has a positive configured timeout and a
TaskFunc that ignores its context and runs forever, yet `executeJob` delivers
no Result for it — contradicting the claim that a `JobDeadlineExceeded`
Result is still delivered once the timeout elapses. -/
theorem diverging_job_no_result_cex :
    0 < divergingJob.timeout ∧
    (∀ c, divergingJob.task c = TaskOutcome.diverges) ∧
    executeJob ctx0 divergingJob = none :=
  ⟨by decide, fun _ => rfl, rfl⟩

/-- C2 (amended): after `Stop()` returns, every subsequent `Submit` fails with
the `PoolNotStarted` error ("worker pool not started"), not with
`PoolCancelled` — `Stop` resets the `started` flag and `Submit` checks it
before ever looking at the cancelled context. -/
theorem submit_after_stop_fails_poolNotStarted {α : Type} (s : PoolState α)
    (j : Job α) (pick : Bool) :
    (Submit (Stop s) j pick).errOf = some poolNotStartedErr ∧
    (Stop s).started = false ∧
    poolNotStartedErr ≠ poolCancelledErr := by
  have hst : (Stop s).started = false := by
    unfold Stop; by_cases h : s.started <;> simp [h]
  refine ⟨?_, hst, by decide⟩
  unfold Submit
  rw [hst]
  simp [SubmitRes.errOf]

/-- C2 counterexample: on a concrete pool that was started and stopped, the
next `Submit` returns the `PoolNotStarted` error, which is a different error
value than `PoolCancelled` — refuting the claim that it fails with
`PoolCancelled`. -/
theorem submit_after_stop_cex :
    (Submit (Stop (Start (NewWorkerPool Unit false 4 2))) unitJob true).errOf
        = some poolNotStartedErr ∧
    poolNotStartedErr ≠ poolCancelledErr :=
  ⟨rfl, by decide⟩

/-- `Start` leaves every started pool unchanged. -/
theorem Start_of_started {α : Type} (s : PoolState α) (h : s.started = true) :
    Start s = s := by
  unfold Start; simp [h]

/-- A pool is started after `Start`. -/
theorem Start_started {α : Type} (s : PoolState α) : (Start s).started = true := by
  unfold Start; by_cases h : s.started <;> simp [h]

/-- Iterating `Start` on a started pool changes nothing. -/
theorem iterate_Start_of_started {α : Type} (s : PoolState α) (h : s.started = true) :
    ∀ k, Start^[k] s = s := by
  intro k
  induction k with
  | zero => rfl
  | succ k ih => rw [Function.iterate_succ_apply, Start_of_started s h, ih]

/-- C7: `Start` is idempotent, and any positive number of `Start` calls on a
freshly created pool (no intervening `Stop`) spawns exactly `workerCount`
workers in total. -/
theorem Start_idempotent_spawns_workerCount :
    (∀ (α : Type) (s : PoolState α), Start (Start s) = Start s) ∧
    (∀ (α : Type) (pc : Bool) (ncpu : Nat) (w : Int) (n : Nat), 1 ≤ n →
      (Start^[n] (NewWorkerPool α pc ncpu w)).spawnedTotal
        = (NewWorkerPool α pc ncpu w).workers) := by
  constructor
  · intro α s
    exact Start_of_started _ (Start_started s)
  · intro α pc ncpu w n hn
    obtain ⟨k, rfl⟩ : ∃ k, n = k + 1 := ⟨n - 1, by omega⟩
    rw [Function.iterate_succ_apply, iterate_Start_of_started _ (Start_started _) k]
    unfold Start NewWorkerPool
    simp

/-- Witness for C7: three `Start` calls on a fresh two-worker pool spawn
exactly two workers. -/
theorem Start_idempotent_witness :
    (Start^[3] (NewWorkerPool Unit false 4 2)).spawnedTotal
      = (NewWorkerPool Unit false 4 2).workers :=
  Start_idempotent_spawns_workerCount.2 Unit false 4 2 3 (by omega)

/-- C9: `Stop` is not terminal.  It resets `started`, so a subsequent `Start`
is accepted and respawns all `workerCount` workers; the job queue stays
closed while the restarted pool reports itself started, and a `Submit` whose
`select` commits to the send case then panics (send on a closed channel), so
`Submit` is not total after restart. -/
theorem stop_resets_started_restart_panics {α : Type} (s : PoolState α)
    (j : Job α) (h : s.started = true) :
    (Stop s).started = false ∧
    (Start (Stop s)).started = true ∧
    (Start (Stop s)).liveWorkers = s.workers ∧
    (Start (Stop s)).queueClosed = true ∧
    Submit (Start (Stop s)) j true = SubmitRes.panicked := by
  unfold Stop Start Submit
  simp [h]

/-- Witness for C9 on a concrete started pool. -/
theorem stop_restart_panics_witness :
    (Stop (Start (NewWorkerPool Unit false 1 1))).started = false ∧
    (Start (Stop (Start (NewWorkerPool Unit false 1 1)))).started = true ∧
    (Start (Stop (Start (NewWorkerPool Unit false 1 1)))).liveWorkers
        = (Start (NewWorkerPool Unit false 1 1)).workers ∧
    (Start (Stop (Start (NewWorkerPool Unit false 1 1)))).queueClosed = true ∧
    Submit (Start (Stop (Start (NewWorkerPool Unit false 1 1)))) unitJob true
        = SubmitRes.panicked :=
  stop_resets_started_restart_panics (Start (NewWorkerPool Unit false 1 1)) unitJob rfl

/-- When at least `count` results arrive before the timeout, the collection
loop returns the first `count` of them and no error. -/
theorem getResultsGo_complete {α : Type} :
    ∀ (arrived : List (Result α)) (count : Nat) (acc : List (Result α)),
      count ≤ arrived.length →
      getResultsGo acc arrived count = (acc ++ arrived.take count, none) := by
  intro arrived
  induction arrived with
  | nil =>
    intro count acc h
    obtain rfl : count = 0 := by simpa using h
    simp [getResultsGo]
  | cons r rest ih =>
    intro count acc h
    cases count with
    | zero => simp [getResultsGo]
    | succ k =>
      show getResultsGo (acc ++ [r]) rest k = _
      rw [ih k (acc ++ [r]) (by simpa using h)]
      simp

/-- When fewer than `count` results arrive before the timeout, the loop
returns everything received so far plus the formatted timeout error. -/
theorem getResultsGo_timeout {α : Type} :
    ∀ (arrived : List (Result α)) (count : Nat) (acc : List (Result α)),
      arrived.length < count →
      getResultsGo acc arrived count =
        (acc ++ arrived,
         some (collectTimeoutErr (acc.length + arrived.length) (acc.length + count))) := by
  intro arrived
  induction arrived with
  | nil =>
    intro count acc h
    obtain ⟨k, rfl⟩ : ∃ k, count = k + 1 := ⟨count - 1, by omega⟩
    simp [getResultsGo]
  | cons r rest ih =>
    intro count acc h
    obtain ⟨k, rfl⟩ : ∃ k, count = k + 1 := ⟨count - 1, by omega⟩
    show getResultsGo (acc ++ [r]) rest k = _
    rw [ih k (acc ++ [r]) (by simpa using h)]
    have e1 : (acc ++ [r]).length + rest.length = acc.length + (r :: rest).length := by
      simp; omega
    have e2 : (acc ++ [r]).length + k = acc.length + (k + 1) := by
      simp; omega
    rw [e1, e2]
    simp

/-- C5: `Collect(expectedCount, timeout)` — when `expectedCount` results
arrive in time, exactly that many are returned with no error; when the
timeout fires first, the partial list gathered so far is returned unchanged
together with a `CollectTimeout` error stating received/expected counts. -/
theorem GetResults_exact_or_timeout :
    ∀ (α : Type) (arrived : List (Result α)) (count : Nat),
      (count ≤ arrived.length →
        GetResults arrived count = (arrived.take count, none) ∧
        (arrived.take count).length = count) ∧
      (arrived.length < count →
        GetResults arrived count = (arrived, some (collectTimeoutErr arrived.length count))) := by
  intro α arrived count
  constructor
  · intro h
    constructor
    · unfold GetResults
      rw [getResultsGo_complete arrived count [] h]
      simp
    · simp [List.length_take]
      omega
  · intro h
    unfold GetResults
    rw [getResultsGo_timeout arrived count [] h]
    simp

/-- Witness for C5: with one result available, asking for one yields it with
no error; asking for two yields the partial singleton plus the "got 1/2"
timeout error. -/
theorem GetResults_witness :
    GetResults [unitResult] 1 = ([unitResult].take 1, none) ∧
    GetResults [unitResult] 2 = ([unitResult], some (collectTimeoutErr 1 2)) :=
  ⟨((GetResults_exact_or_timeout Unit [unitResult] 1).1 (by decide)).1,
   (GetResults_exact_or_timeout Unit [unitResult] 2).2 (by decide)⟩

/-- C8: a job's own failure is wrapped unchanged — with the job's ID — inside
its Result, and job failures are never returned synchronously by `Submit` or
`GetResults`: `Submit` only ever returns the three pool-lifecycle errors, and
`GetResults` only the collect-timeout error. -/
theorem job_error_in_result_never_in_api :
    (∀ (α : Type) (pc : Ctx) (j : Job α) (d : α) (e : Option GoError) (t : Duration),
      j.task (mkJobCtx pc j) = TaskOutcome.returns d e t →
      executeJob pc j = some { jobID := j.id, data := d, error := e, duration := t }) ∧
    (∀ (α : Type) (s : PoolState α) (j : Job α) (pick : Bool) (e : GoError)
      (s' : PoolState α),
      Submit s j pick = SubmitRes.err e s' →
      e = poolNotStartedErr ∨ e = poolCancelledErr ∨ e = queueFullErr) ∧
    (∀ (α : Type) (arrived : List (Result α)) (count : Nat) (res : List (Result α))
      (e : GoError),
      GetResults arrived count = (res, some e) →
      ∃ g x, e = collectTimeoutErr g x) := by
  refine ⟨?_, ?_, ?_⟩
  · intro α pc j d e t h
    unfold executeJob
    rw [h]
  · intro α s j pick e s' heq
    unfold Submit at heq
    repeat' split at heq
    all_goals simp_all
    all_goals repeat' split at heq
    all_goals simp_all
  · intro α arrived count res e heq
    rcases le_or_lt count arrived.length with h | h
    · unfold GetResults at heq
      rw [getResultsGo_complete arrived count [] h] at heq
      simp at heq
    · unfold GetResults at heq
      rw [getResultsGo_timeout arrived count [] h] at heq
      simp only [List.nil_append, List.length_nil, Nat.zero_add] at heq
      rw [Prod.mk.injEq] at heq
      exact ⟨arrived.length, count, by simpa using heq.2.symm⟩

/-- Witness for C8: the concrete failing job's library error and ID appear
unchanged in its Result. -/
theorem job_error_in_result_witness :
    executeJob ctx0 errJob
      = some { jobID := errJob.id, data := (), error := some (GoError.custom 42),
               duration := 11 } :=
  job_error_in_result_never_in_api.1 Unit ctx0 errJob () (some (GoError.custom 42)) 11 rfl

/-- Once the pool context is cancelled, a worker's loop can never block: every
`select` it reaches has its `<-ctx.Done()` case ready, so — as long as no
TaskFunc runs forever — the worker exits, whatever jobs remain buffered,
however full the results channel is and however the `select` races are
resolved. -/
theorem workerRun_cancelled_exits {α : Type} (pc : Ctx) (qc : Bool)
    (hc : pc.cancelled = true) :
    ∀ queue : List (Job α), (∀ j ∈ queue, ∀ c, j.task c ≠ TaskOutcome.diverges) →
      ∀ (free : Nat) (oracle : List Bool),
        workerRun pc qc queue free oracle = WorkerEnd.exited := by
  intro queue
  induction queue with
  | nil =>
    intro _ free oracle
    unfold workerRun
    cases qc <;> simp [hc]
  | cons j rest ih =>
    intro hjobs free oracle
    unfold workerRun
    rw [hc]
    cases horacle : oracle.headD false with
    | false => simp
    | true =>
      simp only [Bool.not_true, Bool.and_false, Bool.false_eq_true, if_false]
      obtain ⟨d, e, t, hret⟩ : ∃ d e t, j.task (mkJobCtx pc j) = .returns d e t := by
        cases h : j.task (mkJobCtx pc j) with
        | returns d e t => exact ⟨d, e, t, rfl⟩
        | diverges => exact absurd h (hjobs j (by simp) _)
      have hexec : executeJob pc j = some ⟨j.id, d, e, t⟩ := by
        unfold executeJob; rw [hret]
      rw [hexec]
      cases free with
      | zero => simp [hc]
      | succ m =>
        have hd : (decide (0 < m + 1) : Bool) = true := by simp
        simp only [hc, hd, Bool.and_self, if_true]
        cases ((oracle.drop 1).headD false) <;>
          simp [ih (fun j hj => hjobs j (List.mem_cons_of_mem _ hj))]

/-- C4: `Stop` on a started pool leaves no worker alive and the job queue
closed, and its effect sequence performs the join (`wg.Wait`) strictly before
closing the result channel; moreover under the cancelled pool context every
worker loop does exit (for unit-of-works that return), so the join
terminates. -/
theorem stop_joins_workers_before_closing_results {α : Type}
    (s : PoolState α) (pc : Ctx) (queue : List (Job α)) (free : Nat)
    (oracle : List Bool)
    (hs : s.started = true) (hpc : pc.cancelled = true)
    (hterm : ∀ j ∈ queue, ∀ c, j.task c ≠ TaskOutcome.diverges) :
    (Stop s).liveWorkers = 0 ∧ (Stop s).queueClosed = true ∧
    (Stop s).started = false ∧
    stopTrace s = [StopEvent.cancelCtx, StopEvent.closeJobQueue,
                   StopEvent.waitAllWorkers, StopEvent.closeResults] ∧
    (stopTrace s).indexOf StopEvent.waitAllWorkers
        < (stopTrace s).indexOf StopEvent.closeResults ∧
    workerRun pc true queue free oracle = WorkerEnd.exited := by
  have htr : stopTrace s = [StopEvent.cancelCtx, StopEvent.closeJobQueue,
      StopEvent.waitAllWorkers, StopEvent.closeResults] := by
    unfold stopTrace; simp [hs]
  refine ⟨?_, ?_, ?_, htr, ?_,
    workerRun_cancelled_exits pc true hpc queue hterm free oracle⟩
  · unfold Stop; simp [hs]
  · unfold Stop; simp [hs]
  · unfold Stop; simp [hs]
  · rw [htr]; decide

/-- Witness for C4 on a concrete stopped pool, buffered job and worker
environment. -/
theorem stop_joins_workers_witness :
    (Stop (Start (NewWorkerPool Unit false 1 1))).liveWorkers = 0 ∧
    (Stop (Start (NewWorkerPool Unit false 1 1))).queueClosed = true ∧
    (Stop (Start (NewWorkerPool Unit false 1 1))).started = false ∧
    stopTrace (Start (NewWorkerPool Unit false 1 1))
        = [StopEvent.cancelCtx, StopEvent.closeJobQueue,
           StopEvent.waitAllWorkers, StopEvent.closeResults] ∧
    (stopTrace (Start (NewWorkerPool Unit false 1 1))).indexOf StopEvent.waitAllWorkers
        < (stopTrace (Start (NewWorkerPool Unit false 1 1))).indexOf
            StopEvent.closeResults ∧
    workerRun { cancelled := true, deadline := none } true [unitJob] 2 [true, true]
        = WorkerEnd.exited :=
  stop_joins_workers_before_closing_results
    (Start (NewWorkerPool Unit false 1 1))
    { cancelled := true, deadline := none } [unitJob] 2 [true, true]
    rfl rfl
    (by
      intro j hj c h
      rw [List.mem_singleton] at hj
      subst hj
      exact TaskOutcome.noConfusion h)

/-- An accepted `Submit` only appends the job to the queue. -/
theorem Submit_ok_state {α : Type} {s s' : PoolState α} {j : Job α} {pick : Bool}
    (h : Submit s j pick = SubmitRes.ok s') : s' = { s with queue := s.queue ++ [j] } := by
  unfold Submit at h
  repeat' split at h
  all_goals simp_all
  all_goals repeat' split at h
  all_goals simp_all

/-- A rejected `Submit` leaves the pool unchanged. -/
theorem Submit_err_state {α : Type} {s s' : PoolState α} {j : Job α} {pick : Bool}
    {e : GoError} (h : Submit s j pick = SubmitRes.err e s') : s' = s := by
  unfold Submit at h
  repeat' split at h
  all_goals simp_all
  all_goals repeat' split at h
  all_goals simp_all

/-- Invariant of every reachable pool state: the job queue is only ever
closed by `Stop`, which also cancels the pool context. -/
theorem reachable_queueClosed_cancelled {α : Type} {s : PoolState α}
    (hr : Reachable s) : s.queueClosed = true → s.cancelled = true := by
  induction hr with
  | new pc ncpu w =>
    intro h
    simp [NewWorkerPool] at h
  | start hr ih =>
    unfold Start
    split
    · exact ih
    · exact ih
  | stop hr ih =>
    unfold Stop
    split
    · exact ih
    · intro _; rfl
  | submit_ok j pick hr heq ih =>
    rw [Submit_ok_state heq]
    exact ih

/-- Every state a batch of submissions passes through is reachable. -/
theorem Reachable_submitSeq {α : Type} {s : PoolState α} (hr : Reachable s) :
    ∀ jobs : List (Job α), Reachable (submitSeq s jobs).1 := by
  intro jobs
  induction jobs generalizing s with
  | nil => exact hr
  | cons j rest ih =>
    show Reachable (match Submit s j false with
      | .ok s' => ((submitSeq s' rest).1, none :: (submitSeq s' rest).2)
      | .err e s' => ((submitSeq s' rest).1, some e :: (submitSeq s' rest).2)
      | .panicked => (s, [])).1
    cases h : Submit s j false with
    | ok s' => exact ih (Reachable.submit_ok j false hr h)
    | err e s' =>
      rw [Submit_err_state h]
      exact ih hr
    | panicked => exact hr

/-- Errors of a batch of submissions to a started, uncancelled, open-queue
pool: the first `capacity − backlog` submissions are accepted, every further
one fails with the queue-full error (and nothing blocks or panics). -/
theorem submitSeq_errs {α : Type} :
    ∀ (jobs : List (Job α)) (s : PoolState α),
      s.started = true → s.cancelled = false → s.queueClosed = false →
      s.queue.length ≤ s.queueCap →
      (submitSeq s jobs).2 =
        List.replicate (min jobs.length (s.queueCap - s.queue.length)) none ++
        List.replicate (jobs.length - (s.queueCap - s.queue.length))
          (some queueFullErr) := by
  intro jobs
  induction jobs with
  | nil =>
    intro s h1 h2 h3 h4
    simp [submitSeq]
  | cons j rest ih =>
    intro s h1 h2 h3 h4
    by_cases hlt : s.queue.length < s.queueCap
    · have hsub : Submit s j false = SubmitRes.ok { s with queue := s.queue ++ [j] } := by
        unfold Submit; simp [h1, h2, h3, hlt]
      simp only [submitSeq, hsub]
      rw [ih { s with queue := s.queue ++ [j] } h1 h2 h3 (by simp; omega)]
      simp only [List.length_append, List.length_cons]
      have hmin : min (rest.length + 1) (s.queueCap - s.queue.length)
          = min rest.length (s.queueCap - (s.queue.length + List.length [j])) + 1 := by
        simp; omega
      have hsubn : rest.length + 1 - (s.queueCap - s.queue.length)
          = rest.length - (s.queueCap - (s.queue.length + List.length [j])) := by
        simp; omega
      rw [hmin, hsubn, List.replicate_succ, List.cons_append]
      simp
    · have hsub : Submit s j false = SubmitRes.err queueFullErr s := by
        unfold Submit; simp [h1, h2, h3, hlt]
      simp only [submitSeq, hsub]
      rw [ih s h1 h2 h3 h4]
      have h0 : s.queueCap - s.queue.length = 0 := by omega
      rw [h0]
      simp [List.replicate_succ]

/-- C6: a started, uncancelled pool whose queue is at capacity rejects
`Submit` immediately with the queue-full error (the non-blocking `default`
case of the `select`), and submitting any batch to a fresh started pool
accepts exactly the first `capacity` jobs and fails each excess submission
with the queue-full error. -/
theorem submit_queueFull_backpressure :
    (∀ (α : Type) (s : PoolState α) (j : Job α) (pick : Bool),
      Reachable s → s.started = true → s.cancelled = false →
      s.queue.length = s.queueCap →
      Submit s j pick = SubmitRes.err queueFullErr s) ∧
    (∀ (α : Type) (ncpu : Nat) (w : Int) (jobs : List (Job α)),
      (submitSeq (Start (NewWorkerPool α false ncpu w)) jobs).2 =
        List.replicate (min jobs.length ((NewWorkerPool α false ncpu w).queueCap))
          none ++
        List.replicate (jobs.length - (NewWorkerPool α false ncpu w).queueCap)
          (some queueFullErr)) := by
  constructor
  · intro α s j pick hr h1 h2 hful
    have hqc : s.queueClosed = false := by
      cases hqc : s.queueClosed with
      | true => exact absurd (reachable_queueClosed_cancelled hr hqc) (by simp [h2])
      | false => rfl
    unfold Submit
    simp [h1, h2, hqc, hful]
  · intro α ncpu w jobs
    have hcan : (Start (NewWorkerPool α false ncpu w)).cancelled = false := by
      simp [Start, NewWorkerPool]
    have hqc : (Start (NewWorkerPool α false ncpu w)).queueClosed = false := by
      simp [Start, NewWorkerPool]
    have hq : (Start (NewWorkerPool α false ncpu w)).queue = [] := by
      simp [Start, NewWorkerPool]
    have hcap : (Start (NewWorkerPool α false ncpu w)).queueCap
        = (NewWorkerPool α false ncpu w).queueCap := by
      simp [Start, NewWorkerPool]
    rw [submitSeq_errs jobs _ (Start_started _) hcan hqc (by rw [hq]; simp)]
    rw [hq, hcap]
    simp

/-- Witness for C6: the concrete one-worker pool filled by ten accepted
submissions rejects the eleventh with the queue-full error, and an
eleven-job batch on the fresh pool yields ten acceptances then one
queue-full failure. -/
theorem submit_queueFull_witness :
    Submit fullPool unitJob true = SubmitRes.err queueFullErr fullPool ∧
    (submitSeq (Start (NewWorkerPool Unit false 1 1)) (List.replicate 11 unitJob)).2 =
      List.replicate 10 none ++ List.replicate 1 (some queueFullErr) :=
  ⟨submit_queueFull_backpressure.1 Unit fullPool unitJob true
      (Reachable_submitSeq (Reachable.start (Reachable.new false 1 1))
        (List.replicate 10 unitJob))
      rfl rfl rfl,
   submit_queueFull_backpressure.2 Unit 1 1 (List.replicate 11 unitJob)⟩

/-- The collect-timeout message never coincides with the other fixed
messages: it always starts with a different character. -/
theorem collectTimeoutMsg_ne (g e : Nat) :
    collectTimeoutMsg g e ≠ "worker pool not started" ∧
    collectTimeoutMsg g e ≠ "job queue full" := by
  constructor <;>
  · intro h
    have h2 := congrArg String.data h
    simp only [collectTimeoutMsg, String.data_append] at h2
    have h3 := congrArg List.head? h2
    simp at h3

/-- C3 (amended): the four synchronous failures are mutually distinguishable
as error values (their messages differ, and the cancellation error is the
`context.Canceled` sentinel), but they are not distinct error types:
`PoolNotStarted`, `QueueFull` and `CollectTimeout` are all built with
`fmt.Errorf` and share the one generic string-error type, so callers can
tell them apart only by comparing message text. -/
theorem pool_errors_distinct_values_single_type :
    (poolNotStartedErr ≠ queueFullErr) ∧
    (poolNotStartedErr ≠ poolCancelledErr) ∧
    (queueFullErr ≠ poolCancelledErr) ∧
    (∀ g e : Nat,
      collectTimeoutErr g e ≠ poolNotStartedErr ∧
      collectTimeoutErr g e ≠ queueFullErr ∧
      collectTimeoutErr g e ≠ poolCancelledErr) ∧
    sameGoErrorType poolNotStartedErr queueFullErr = true ∧
    (∀ g e : Nat, sameGoErrorType (collectTimeoutErr g e) poolNotStartedErr = true) ∧
    sameGoErrorType poolCancelledErr poolNotStartedErr = false := by
  refine ⟨by decide, by decide, by decide, ?_, rfl, fun g e => rfl, rfl⟩
  intro g e
  refine ⟨?_, ?_, ?_⟩
  · intro h
    rw [collectTimeoutErr, poolNotStartedErr] at h
    exact absurd (GoError.errorString.inj h) (collectTimeoutMsg_ne g e).1
  · intro h
    rw [collectTimeoutErr, queueFullErr] at h
    exact absurd (GoError.errorString.inj h) (collectTimeoutMsg_ne g e).2
  · intro h
    rw [collectTimeoutErr, poolCancelledErr] at h
    exact GoError.noConfusion h

/-- C3 counterexample: `PoolNotStarted`, `QueueFull` and `CollectTimeout` are
all values of the single generic `fmt.Errorf` string-error type — refuting
the claim that the pool's failures are typed, mutually distinguishable error
values rather than instances of one generic error type. -/
theorem pool_errors_single_generic_type_cex :
    sameGoErrorType poolNotStartedErr queueFullErr = true ∧
    sameGoErrorType poolNotStartedErr (collectTimeoutErr 3 5) = true ∧
    poolNotStartedErr = GoError.errorString "worker pool not started" ∧
    queueFullErr = GoError.errorString "job queue full" :=
  ⟨rfl, rfl, rfl, rfl⟩

/-- The duration list a sequence of `RecordOperation` calls leaves under one
operation name: that name's durations, appended in call order. -/
theorem recordSeq_durations :
    ∀ (calls : List (String × Duration)) (s : BenchState) (op : String),
      (recordSeq s calls).durations op = s.durations op ++ durationsOf calls op := by
  intro calls
  induction calls with
  | nil =>
    intro s op
    simp [recordSeq, durationsOf]
  | cons c rest ih =>
    intro s op
    show (recordSeq (RecordOperation s c.1 c.2) rest).durations op = _
    rw [ih (RecordOperation s c.1 c.2) op]
    by_cases h : c.1 = op
    · simp [RecordOperation, h, durationsOf, List.filter_cons]
    · have h2 : ¬(op = c.1) := fun hh => h hh.symm
      simp [RecordOperation, h2, durationsOf, List.filter_cons, h]

/-- `wrap64` does nothing to a value already in the `int64` range. -/
theorem wrap64_eq_self {a : Int} (h1 : -(2 ^ 63) ≤ a) (h2 : a < 2 ^ 63) :
    wrap64 a = a := by
  unfold wrap64
  rw [Int.emod_eq_of_lt (by omega) (by omega)]
  omega

/-- As long as the counter stays below `2^63`, its wrapping increments behave
like exact counting: the counter after a call sequence is its start value
plus the number of calls for the operation name. -/
theorem recordSeq_count :
    ∀ (calls : List (String × Duration)) (s : BenchState) (op : String),
      0 ≤ s.operations op →
      s.operations op + ((calls.filter (fun c => c.1 == op)).length : Int) < 2 ^ 63 →
      (recordSeq s calls).operations op
        = s.operations op + ((calls.filter (fun c => c.1 == op)).length : Int) := by
  intro calls
  induction calls with
  | nil =>
    intro s op _ _
    simp [recordSeq]
  | cons c rest ih =>
    intro s op hnn hlt
    show (recordSeq (RecordOperation s c.1 c.2) rest).operations op = _
    by_cases h : c.1 = op
    · have hc2 : (((c :: rest).filter (fun x => x.1 == op)).length : Int)
          = ((rest.filter (fun x => x.1 == op)).length : Int) + 1 := by
        simp [List.filter_cons, h]
      rw [hc2] at hlt ⊢
      have hrest0 : (0 : Int) ≤ ((rest.filter (fun x => x.1 == op)).length : Int) := by
        positivity
      have hcnt : (RecordOperation s c.1 c.2).operations op = s.operations op + 1 := by
        have hw : (RecordOperation s c.1 c.2).operations op
            = wrap64 (s.operations op + 1) := by
          simp [RecordOperation, h]
        rw [hw]
        exact wrap64_eq_self (by omega) (by omega)
      rw [ih (RecordOperation s c.1 c.2) op (by rw [hcnt]; omega)
        (by rw [hcnt]; omega), hcnt]
      ring
    · have h2 : ¬(op = c.1) := fun hh => h hh.symm
      have hc2 : (((c :: rest).filter (fun x => x.1 == op)).length : Int)
          = ((rest.filter (fun x => x.1 == op)).length : Int) := by
        simp [List.filter_cons, h]
      rw [hc2] at hlt ⊢
      have hcnt : (RecordOperation s c.1 c.2).operations op = s.operations op := by
        simp [RecordOperation, h2]
      rw [ih (RecordOperation s c.1 c.2) op (by rw [hcnt]; omega)
        (by rw [hcnt]; omega), hcnt]

/-- When no running total leaves the `int64` range, the wrapping sum fold
agrees with the exact sum fold. -/
theorem foldl_wrap64_eq :
    ∀ (l : List Int) (acc : Int), sumsWithin64 l acc = true →
      l.foldl (fun a d => wrap64 (a + d)) acc = l.foldl (fun a d => a + d) acc := by
  intro l
  induction l with
  | nil => intro acc _; rfl
  | cons d rest ih =>
    intro acc hok
    simp only [sumsWithin64, Bool.and_eq_true, decide_eq_true_eq] at hok
    obtain ⟨⟨hlo, hhi⟩, hrest⟩ := hok
    show rest.foldl (fun a d => wrap64 (a + d)) (wrap64 (acc + d)) = _
    rw [wrap64_eq_self hlo hhi]
    exact ih (acc + d) hrest

/-- The fold `GetBenchmarkStats` uses for the minimum is the `min` fold. -/
theorem statsMinFold_eq :
    (fun (m d : Int) => if d < m then d else m) = fun (m d : Int) => min m d := by
  funext m d
  rw [min_def]
  by_cases h : d < m
  · rw [if_pos h, if_neg (by omega)]
  · rw [if_neg h, if_pos (by omega)]

/-- The fold `GetBenchmarkStats` uses for the maximum is the `max` fold. -/
theorem statsMaxFold_eq :
    (fun (m d : Int) => if d > m then d else m) = fun (m d : Int) => max m d := by
  funext m d
  rw [max_def]
  by_cases h : d > m
  · rw [if_pos h, if_pos (by omega)]
  · by_cases h2 : m ≤ d
    · rw [if_neg h, if_pos h2]
      omega
    · rw [if_neg h, if_neg h2]

/-- A `min`-fold is bounded by its start value. -/
theorem foldl_min_le_start : ∀ (l : List Int) (a : Int), l.foldl min a ≤ a := by
  intro l
  induction l with
  | nil => intro a; exact le_refl a
  | cons x l ih =>
    intro a
    exact le_trans (ih (min a x)) (min_le_left a x)

/-- A `min`-fold is bounded by every list element. -/
theorem foldl_min_le_mem :
    ∀ (l : List Int) (a x : Int), x ∈ l → l.foldl min a ≤ x := by
  intro l
  induction l with
  | nil => intro a x hx; simp at hx
  | cons y l ih =>
    intro a x hx
    rcases List.mem_cons.mp hx with rfl | hx
    · exact le_trans (foldl_min_le_start l (min a x)) (min_le_right a x)
    · exact ih (min a y) x hx

/-- A `min`-fold yields its start value or a list element. -/
theorem foldl_min_mem :
    ∀ (l : List Int) (a : Int), l.foldl min a = a ∨ l.foldl min a ∈ l := by
  intro l
  induction l with
  | nil => intro a; exact Or.inl rfl
  | cons x l ih =>
    intro a
    rcases ih (min a x) with h | h
    · rcases min_choice a x with h2 | h2
      · exact Or.inl (h.trans h2)
      · exact Or.inr (by rw [List.foldl_cons, h, h2]; exact List.mem_cons_self x l)
    · exact Or.inr (List.mem_cons_of_mem x h)

/-- A `max`-fold dominates its start value. -/
theorem le_foldl_max_start : ∀ (l : List Int) (a : Int), a ≤ l.foldl max a := by
  intro l
  induction l with
  | nil => intro a; exact le_refl a
  | cons x l ih =>
    intro a
    exact le_trans (le_max_left a x) (ih (max a x))

/-- A `max`-fold dominates every list element. -/
theorem mem_le_foldl_max :
    ∀ (l : List Int) (a x : Int), x ∈ l → x ≤ l.foldl max a := by
  intro l
  induction l with
  | nil => intro a x hx; simp at hx
  | cons y l ih =>
    intro a x hx
    rcases List.mem_cons.mp hx with rfl | hx
    · exact le_trans (le_max_right a x) (le_foldl_max_start l (max a x))
    · exact ih (max a y) x hx

/-- A `max`-fold yields its start value or a list element. -/
theorem foldl_max_mem :
    ∀ (l : List Int) (a : Int), l.foldl max a = a ∨ l.foldl max a ∈ l := by
  intro l
  induction l with
  | nil => intro a; exact Or.inl rfl
  | cons x l ih =>
    intro a
    rcases ih (max a x) with h | h
    · rcases max_choice a x with h2 | h2
      · exact Or.inl (h.trans h2)
      · exact Or.inr (by rw [List.foldl_cons, h, h2]; exact List.mem_cons_self x l)
    · exact Or.inr (List.mem_cons_of_mem x h)

/-- The running-total fold of `GetBenchmarkStats` computes the list sum. -/
theorem foldl_add_eq_sum :
    ∀ (l : List Int) (a : Int), l.foldl (fun acc d => acc + d) a = a + l.sum := by
  intro l
  induction l with
  | nil => intro a; simp
  | cons x l ih =>
    intro a
    show l.foldl (fun acc d => acc + d) (a + x) = _
    rw [ih (a + x), List.sum_cons]
    ring

/-- A lower bound on all elements bounds the sum from below. -/
theorem length_mul_le_sum :
    ∀ (l : List Int) (m : Int), (∀ x ∈ l, m ≤ x) → (l.length : Int) * m ≤ l.sum := by
  intro l
  induction l with
  | nil => intro m _; simp
  | cons x l ih =>
    intro m h
    have h1 := ih m (fun y hy => h y (List.mem_cons_of_mem x hy))
    have h2 := h x (List.mem_cons_self x l)
    rw [List.sum_cons, List.length_cons]
    push_cast
    nlinarith

/-- An upper bound on all elements bounds the sum from above. -/
theorem sum_le_length_mul :
    ∀ (l : List Int) (m : Int), (∀ x ∈ l, x ≤ m) → l.sum ≤ (l.length : Int) * m := by
  intro l
  induction l with
  | nil => intro m _; simp
  | cons x l ih =>
    intro m h
    have h1 := ih m (fun y hy => h y (List.mem_cons_of_mem x hy))
    have h2 := h x (List.mem_cons_self x l)
    rw [List.sum_cons, List.length_cons]
    push_cast
    nlinarith

/-- Truncating remainder is odd in its first argument. -/
theorem tmod_neg_left (a b : Int) : Int.tmod (-a) b = -Int.tmod a b := by
  rw [Int.tmod_def, Int.tmod_def, Int.neg_tdiv]
  ring

/-- Truncating remainder by a positive modulus exceeds its negation. -/
theorem neg_lt_tmod (a : Int) {n : Int} (hn : 0 < n) : -n < Int.tmod a n := by
  rcases le_or_lt 0 a with ha | ha
  · have h0 : 0 ≤ Int.tmod a n := Int.tmod_nonneg n ha
    linarith
  · have h1 : Int.tmod (-a) n < n := Int.tmod_lt_of_pos (-a) hn
    rw [tmod_neg_left] at h1
    linarith

/-- Go's truncating division respects lower bounds: `n*m ≤ a` gives
`m ≤ a / n` for positive `n`. -/
theorem le_tdiv_of_mul_le {n m a : Int} (hn : 0 < n) (h : n * m ≤ a) :
    m ≤ a.tdiv n := by
  have hd := Int.tmod_add_tdiv a n
  have h1 : Int.tmod a n < n := Int.tmod_lt_of_pos a hn
  have h2 : n * m < n * (a.tdiv n + 1) := by
    have hx : n * (a.tdiv n + 1) = n * a.tdiv n + n := by ring
    linarith
  have h3 := lt_of_mul_lt_mul_left h2 (le_of_lt hn)
  exact Int.lt_add_one_iff.mp h3

/-- Go's truncating division respects upper bounds: `a ≤ n*m` gives
`a / n ≤ m` for positive `n`. -/
theorem tdiv_le_of_le_mul {n m a : Int} (hn : 0 < n) (h : a ≤ n * m) :
    a.tdiv n ≤ m := by
  have hd := Int.tmod_add_tdiv a n
  have h1 : -n < Int.tmod a n := neg_lt_tmod a hn
  have h2 : n * a.tdiv n < n * (m + 1) := by
    have hx : n * (m + 1) = n * m + n := by ring
    linarith
  have h3 := lt_of_mul_lt_mul_left h2 (le_of_lt hn)
  exact Int.lt_add_one_iff.mp h3

/-- `GetBenchmarkStats` at an operation with a non-empty duration list,
written out. -/
theorem GetBenchmarkStats_eq {s : BenchState} {op : String} {d0 : Duration}
    {rest : List Duration} (h : s.durations op = d0 :: rest) :
    GetBenchmarkStats s op = some
      { count := s.operations op
        avg := Int.tdiv ((d0 :: rest).foldl (fun acc d => wrap64 (acc + d)) 0)
                 (wrap64 (Int.ofNat (d0 :: rest).length))
        min := (d0 :: rest).foldl (fun m d => if d < m then d else m) d0
        max := (d0 :: rest).foldl (fun m d => if d > m then d else m) d0
        total := (d0 :: rest).foldl (fun acc d => wrap64 (acc + d)) 0 } := by
  unfold GetBenchmarkStats
  rw [h]

/-- C10 (amended): for every operation name with at least one recorded
duration — provided the number of recordings fits in `int64` and no running
total of the `int64` sum overflows — the reported statistics are exact:
`count` counts that name's `RecordOperation` calls, `total` is the exact sum,
`min`/`max` are the least and greatest recorded durations, `avg` is the
truncating integer division of the total by the number of recordings, and
`min ≤ avg ≤ max`.  When a running total does overflow, the wrapped total
can differ from the exact sum and `avg` can leave `[min, max]` (see the
counterexample). -/
theorem benchmark_stats_faithful :
    ∀ (calls : List (String × Duration)) (op : String),
      0 < (durationsOf calls op).length →
      ((durationsOf calls op).length : Int) < 2 ^ 63 →
      sumsWithin64 (durationsOf calls op) 0 = true →
      ∃ st : OpStats,
        GetBenchmarkStats (recordSeq newBenchState calls) op = some st ∧
        st.count = ((calls.filter (fun c => c.1 == op)).length : Int) ∧
        st.count = ((durationsOf calls op).length : Int) ∧
        st.total = (durationsOf calls op).sum ∧
        st.min ∈ durationsOf calls op ∧
        (∀ x ∈ durationsOf calls op, st.min ≤ x) ∧
        st.max ∈ durationsOf calls op ∧
        (∀ x ∈ durationsOf calls op, x ≤ st.max) ∧
        st.avg = Int.tdiv st.total ((durationsOf calls op).length : Int) ∧
        st.min ≤ st.avg ∧ st.avg ≤ st.max := by
  intro calls op hpos hlen64 hsum
  have hflt : ((calls.filter (fun c => c.1 == op)).length : Int)
      = ((durationsOf calls op).length : Int) := by
    simp [durationsOf]
  have hdur2 : (recordSeq newBenchState calls).durations op = durationsOf calls op := by
    rw [recordSeq_durations calls newBenchState op]; simp [newBenchState]
  have hops2 : (recordSeq newBenchState calls).operations op
      = ((calls.filter (fun c => c.1 == op)).length : Int) := by
    have hb : newBenchState.operations op
        + ((calls.filter (fun c => c.1 == op)).length : Int) < 2 ^ 63 := by
      have hx : (0 : Int) + ((calls.filter (fun c => c.1 == op)).length : Int)
          < 2 ^ 63 := by
        rw [hflt]; omega
      simpa [newBenchState] using hx
    rw [recordSeq_count calls newBenchState op (by simp [newBenchState]) hb]
    simp [newBenchState]
  obtain ⟨d0, rest, hds⟩ : ∃ d0 rest, durationsOf calls op = d0 :: rest := by
    cases hd : durationsOf calls op with
    | nil => rw [hd] at hpos; simp at hpos
    | cons a b => exact ⟨a, b, rfl⟩
  rw [hds] at hlen64
  have hmain := GetBenchmarkStats_eq (hdur2.trans hds)
  have hmin_eq : ((d0 :: rest).foldl (fun m d => if d < m then d else m) d0)
      = (d0 :: rest).foldl min d0 := by rw [statsMinFold_eq]
  have hmax_eq : ((d0 :: rest).foldl (fun m d => if d > m then d else m) d0)
      = (d0 :: rest).foldl max d0 := by rw [statsMaxFold_eq]
  have htot : ((d0 :: rest).foldl (fun acc d => wrap64 (acc + d)) 0)
      = (d0 :: rest).sum := by
    rw [foldl_wrap64_eq (d0 :: rest) 0 (by rw [← hds]; exact hsum)]
    rw [foldl_add_eq_sum]; ring
  have hlen : (0 : Int) < ((d0 :: rest).length : Int) := by
    exact_mod_cast Nat.succ_pos rest.length
  have hdivw : wrap64 (Int.ofNat (d0 :: rest).length) = Int.ofNat (d0 :: rest).length := by
    have hcast : Int.ofNat (d0 :: rest).length = ((d0 :: rest).length : Int) := rfl
    refine wrap64_eq_self ?_ ?_
    · rw [hcast]
      have h0 : (0 : Int) ≤ ((d0 :: rest).length : Int) := by positivity
      omega
    · rw [hcast]; exact hlen64
  have hminmem : (d0 :: rest).foldl min d0 ∈ d0 :: rest := by
    rcases foldl_min_mem (d0 :: rest) d0 with h | h
    · rw [h]; exact List.mem_cons_self d0 rest
    · exact h
  have hmaxmem : (d0 :: rest).foldl max d0 ∈ d0 :: rest := by
    rcases foldl_max_mem (d0 :: rest) d0 with h | h
    · rw [h]; exact List.mem_cons_self d0 rest
    · exact h
  have hminle : ∀ x ∈ d0 :: rest, (d0 :: rest).foldl min d0 ≤ x :=
    fun x hx => foldl_min_le_mem (d0 :: rest) d0 x hx
  have hmaxge : ∀ x ∈ d0 :: rest, x ≤ (d0 :: rest).foldl max d0 :=
    fun x hx => mem_le_foldl_max (d0 :: rest) d0 x hx
  refine ⟨_, hmain, hops2, hops2.trans hflt, ?_, ?_, ?_, ?_, ?_, ?_, ?_, ?_⟩
  · show ((d0 :: rest).foldl (fun acc d => wrap64 (acc + d)) 0)
        = (durationsOf calls op).sum
    rw [htot, hds]
  · show ((d0 :: rest).foldl (fun m d => if d < m then d else m) d0)
        ∈ durationsOf calls op
    rw [hmin_eq, hds]; exact hminmem
  · show ∀ x ∈ durationsOf calls op,
        ((d0 :: rest).foldl (fun m d => if d < m then d else m) d0) ≤ x
    rw [hmin_eq, hds]; exact hminle
  · show ((d0 :: rest).foldl (fun m d => if d > m then d else m) d0)
        ∈ durationsOf calls op
    rw [hmax_eq, hds]; exact hmaxmem
  · show ∀ x ∈ durationsOf calls op,
        x ≤ ((d0 :: rest).foldl (fun m d => if d > m then d else m) d0)
    rw [hmax_eq, hds]; exact hmaxge
  · show Int.tdiv ((d0 :: rest).foldl (fun acc d => wrap64 (acc + d)) 0)
          (wrap64 (Int.ofNat (d0 :: rest).length))
        = Int.tdiv ((d0 :: rest).foldl (fun acc d => wrap64 (acc + d)) 0)
          ((durationsOf calls op).length : Int)
    rw [hdivw, hds]
    rfl
  · show ((d0 :: rest).foldl (fun m d => if d < m then d else m) d0)
        ≤ Int.tdiv ((d0 :: rest).foldl (fun acc d => wrap64 (acc + d)) 0)
            (wrap64 (Int.ofNat (d0 :: rest).length))
    rw [hmin_eq, htot, hdivw]
    exact le_tdiv_of_mul_le hlen
      (length_mul_le_sum (d0 :: rest) ((d0 :: rest).foldl min d0) hminle)
  · show Int.tdiv ((d0 :: rest).foldl (fun acc d => wrap64 (acc + d)) 0)
          (wrap64 (Int.ofNat (d0 :: rest).length))
        ≤ ((d0 :: rest).foldl (fun m d => if d > m then d else m) d0)
    rw [hmax_eq, htot, hdivw]
    exact tdiv_le_of_le_mul hlen
      (sum_le_length_mul (d0 :: rest) ((d0 :: rest).foldl max d0) hmaxge)

/-- Witness for C10: two recordings of 3ns and 5ns under "a" (no overflow
anywhere) report count 2, total 8, min 3, max 5 and avg 4, with
min ≤ avg ≤ max. -/
theorem benchmark_stats_witness :
    ∃ st : OpStats,
      GetBenchmarkStats (recordSeq newBenchState [("a", 3), ("a", 5)]) "a" = some st ∧
      st.count = ((([("a", (3 : Duration)), ("a", 5)]).filter
          (fun c => c.1 == "a")).length : Int) ∧
      st.count = ((durationsOf [("a", 3), ("a", 5)] "a").length : Int) ∧
      st.total = (durationsOf [("a", 3), ("a", 5)] "a").sum ∧
      st.min ∈ durationsOf [("a", 3), ("a", 5)] "a" ∧
      (∀ x ∈ durationsOf [("a", 3), ("a", 5)] "a", st.min ≤ x) ∧
      st.max ∈ durationsOf [("a", 3), ("a", 5)] "a" ∧
      (∀ x ∈ durationsOf [("a", 3), ("a", 5)] "a", x ≤ st.max) ∧
      st.avg = Int.tdiv st.total ((durationsOf [("a", 3), ("a", 5)] "a").length : Int) ∧
      st.min ≤ st.avg ∧ st.avg ≤ st.max :=
  benchmark_stats_faithful [("a", 3), ("a", 5)] "a" (by decide) (by decide) (by decide)

/-- C10 counterexample: recording two durations of `2^62` ns under one name
overflows the int64 running total — `total` wraps to `-2^63`, so it is not
the exact sum (`2^63`), and `avg = -2^62` falls below `min = 2^62`, refuting
"total equal to the exact sum" and "min ≤ avg ≤ max always holds". -/
theorem benchmark_stats_overflow_cex :
    ∃ st : OpStats,
      GetBenchmarkStats (recordSeq newBenchState
          [("a", 2 ^ 62), ("a", 2 ^ 62)]) "a" = some st ∧
      st.total ≠ (durationsOf [("a", 2 ^ 62), ("a", 2 ^ 62)] "a").sum ∧
      ¬(st.min ≤ st.avg) := by
  refine ⟨{ count := 2, avg := -(2 ^ 62), min := 2 ^ 62, max := 2 ^ 62,
            total := -(2 ^ 63) }, ?_, ?_, ?_⟩
  · decide
  · decide
  · decide

end Concurrency
